import Mathlib

/-!
Verification of the agent-demo chat client (src/chat-ui/src/App.tsx).

The file shallowly embeds the client-side stream decoder and conversation
state machine implemented by `handleSend` in App.tsx. Text is modelled as
`List Char` (the browser's TextDecoder reassembles UTF-8 code points across
chunk boundaries, so a character-level model of the byte stream is faithful).
Values that the code draws from the JavaScript environment are passed in
explicitly: the fetch outcome (`FetchResult`) and the notice ids produced by
each evaluation of the expression Date.now() + Math.random() (a list of
natural numbers consumed one per tool event).

Exceptions are modelled by threading an `Option (List Char)`: `none` means
normal continuation, `some msg` means a JavaScript exception carrying message
`msg` is propagating (the partial state updates performed before the throw are
kept, matching React's setState calls having already run).
-/

namespace AgentDemo

/-- A JSON value as produced by the JavaScript builtin JSON.parse: strings
(decoded), booleans, null, arrays, objects (field list in source order,
duplicate keys preserved so that lookup can keep the last), and numbers.
A number is kept as its literal source text: no claim inspects numeric
values and double-precision numeric semantics is outside the model. -/
inductive Json where
  | str (s : List Char)
  | num (lit : List Char)
  | bool (b : Bool)
  | null
  | arr (elems : List Json)
  | obj (fields : List (List Char × Json))

/-- Message, App.tsx lines 6-9. The TypeScript interface declares both
fields as strings, but at runtime a field holds whatever the final branch
copied out of JSON.parse's result: a JSON value, or undefined — modelled
as `none` — when the payload object lacks the property. User and system
messages always carry strings. -/
structure Message where
  role : Option Json
  content : Option Json

/-- ToolMessage, App.tsx lines 11-14: a transient tool notice. -/
structure ToolMessage where
  id : Nat
  content : List Char
deriving DecidableEq, Repr

/-- The four pieces of React state used by the chat component,
App.tsx lines 60-64: messages, isLoading, error, toolMessages.
(The text-input box state is UI chrome and not part of the protocol model.) -/
structure ClientState where
  messages : List Message
  toolMessages : List ToolMessage
  isLoading : Bool
  error : Option (List Char)

/-- Whitespace as recognised by JavaScript String.prototype.trim, restricted
to the ASCII range (the protocol text is ASCII; the Unicode space classes
trim additionally strips never occur in the modelled streams). -/
def isWSChar (c : Char) : Bool :=
  c = ' ' || c = '\t' || c = '\n' || c = '\r' || c = '\x0b' || c = '\x0c'

/-- JavaScript's s.trim(): strip leading and trailing whitespace. -/
def jsTrim (l : List Char) : List Char :=
  ((l.dropWhile isWSChar).reverse.dropWhile isWSChar).reverse

/-- Strip leading whitespace (used by the JSON.parse model). -/
def skipWS (l : List Char) : List Char :=
  l.dropWhile isWSChar

/-- buffer.replace(/\r/g, ''), App.tsx line 111: delete every carriage
return from the buffer. -/
def stripCR (l : List Char) : List Char :=
  l.filter (fun c => c != '\r')

/-- buffer.indexOf('\n\n') followed by the two slices, App.tsx lines 113-115:
find the leftmost blank-line terminator; return the frame before it and the
remaining buffer after it, or `none` when no terminator is present. -/
def splitFrame : List Char → Option (List Char × List Char)
  | [] => none
  | [_] => none
  | c₁ :: c₂ :: rest =>
    if c₁ = '\n' ∧ c₂ = '\n' then some ([], rest)
    else (splitFrame (c₂ :: rest)).map (fun p => (c₁ :: p.1, p.2))

/-- Fuelled form of the inner while loop of App.tsx lines 113-115: repeatedly
slice complete frames off the front of the buffer. Each found terminator
consumes at least two characters, so `buf.length` is always enough fuel. -/
def drainFuel : Nat → List Char → List (List Char) × List Char
  | 0, buf => ([], buf)
  | fuel + 1, buf =>
    match splitFrame buf with
    | none => ([], buf)
    | some (f, r) =>
      let p := drainFuel fuel r
      (f :: p.1, p.2)

/-- The inner while loop of App.tsx lines 113-115: pop every complete frame,
in order, leaving the trailing partial frame as the new buffer. -/
def drain (buf : List Char) : List (List Char) × List Char :=
  drainFuel buf.length buf

/-- raw.split('\n'), App.tsx line 118. -/
def splitLines : List Char → List (List Char)
  | [] => [[]]
  | c :: rest =>
    if c = '\n' then [] :: splitLines rest
    else
      match splitLines rest with
      | [] => [[c]]
      | l :: ls => (c :: l) :: ls

/-- The for-loop of App.tsx lines 119-127 over the frame's lines, with the
accumulator (event, data): a line starting with "event:" replaces the event
tag by the trimmed remainder; otherwise a line starting with "data:"
concatenates its trimmed remainder onto data; other lines are ignored. -/
def parseLines : List (List Char) → List Char × List Char → List Char × List Char
  | [], acc => acc
  | line :: rest, acc =>
    if line.take 6 = "event:".toList then
      parseLines rest (jsTrim (line.drop 6), acc.2)
    else if line.take 5 = "data:".toList then
      parseLines rest (acc.1, acc.2 ++ jsTrim (line.drop 5))
    else
      parseLines rest acc

/-- Parse one raw frame into its (event tag, data payload) pair,
App.tsx lines 118-127. -/
def parseFrame (raw : List Char) : List Char × List Char :=
  parseLines (splitLines raw) ([], [])

/-- The whitespace JSON.parse skips between tokens: space, tab, line feed,
carriage return — the JSON grammar's set, narrower than String.trim's. -/
def jsonWS (c : Char) : Bool :=
  c = ' ' || c = '\t' || c = '\n' || c = '\r'

/-- Skip inter-token JSON whitespace. -/
def skipJsonWS (l : List Char) : List Char :=
  l.dropWhile jsonWS

/-- Value of one hexadecimal digit, case-insensitive. -/
def hexVal (c : Char) : Option Nat :=
  if '0' ≤ c ∧ c ≤ '9' then some (c.toNat - '0'.toNat)
  else if 'a' ≤ c ∧ c ≤ 'f' then some (c.toNat - 'a'.toNat + 10)
  else if 'A' ≤ c ∧ c ≤ 'F' then some (c.toNat - 'A'.toNat + 10)
  else none

/-- The four hexadecimal digits of a \uXXXX escape. -/
def parseHex4 : List Char → Option (Nat × List Char)
  | c1 :: c2 :: c3 :: c4 :: rest =>
    match hexVal c1, hexVal c2, hexVal c3, hexVal c4 with
    | some h1, some h2, some h3, some h4 =>
      some (((h1 * 16 + h2) * 16 + h3) * 16 + h4, rest)
    | _, _, _, _ => none
  | _ => none

/-- U+FFFD, see `parseStringBody`. -/
def replacementChar : Char :=
  Char.ofNat 0xFFFD

/-- Decode the body of a JSON string literal, after the opening quote:
every escape sequence is validated and decoded (rejecting invalid escapes
such as backslash-z), unescaped control characters below U+0020 are
rejected, and the decoded text up to the closing quote is returned with
the remaining input. A \uXXXX escape naming a high surrogate combines
with an immediately following low-surrogate escape into the one code
point a JavaScript string holds for the pair; a lone surrogate, which
JavaScript keeps as an unpaired UTF-16 code unit, has no Lean Char
representation and decodes to U+FFFD — payloads containing lone-surrogate
escapes are the one place this model diverges from JSON.parse. The fuel
only needs to exceed the input length. -/
def parseStringBody : Nat → List Char → Option (List Char × List Char)
  | 0, _ => none
  | _, [] => none
  | fuel + 1, c :: rest =>
    if c = '\"' then some ([], rest)
    else if c = '\\' then
      match rest with
      | [] => none
      | e :: rest2 =>
        if e = '\"' then (parseStringBody fuel rest2).map (fun p => ('\"' :: p.1, p.2))
        else if e = '\\' then (parseStringBody fuel rest2).map (fun p => ('\\' :: p.1, p.2))
        else if e = '/' then (parseStringBody fuel rest2).map (fun p => ('/' :: p.1, p.2))
        else if e = 'b' then (parseStringBody fuel rest2).map (fun p => ('\x08' :: p.1, p.2))
        else if e = 'f' then (parseStringBody fuel rest2).map (fun p => ('\x0c' :: p.1, p.2))
        else if e = 'n' then (parseStringBody fuel rest2).map (fun p => ('\n' :: p.1, p.2))
        else if e = 'r' then (parseStringBody fuel rest2).map (fun p => ('\x0d' :: p.1, p.2))
        else if e = 't' then (parseStringBody fuel rest2).map (fun p => ('\t' :: p.1, p.2))
        else if e = 'u' then
          match parseHex4 rest2 with
          | none => none
          | some (n, rest3) =>
            if n < 0xD800 ∨ 0xDFFF < n then
              (parseStringBody fuel rest3).map (fun p => (Char.ofNat n :: p.1, p.2))
            else if n ≤ 0xDBFF then
              match rest3 with
              | '\\' :: 'u' :: rest4 =>
                match parseHex4 rest4 with
                | some (n2, rest5) =>
                  if 0xDC00 ≤ n2 ∧ n2 ≤ 0xDFFF then
                    (parseStringBody fuel rest5).map (fun p =>
                      (Char.ofNat (0x10000 + (n - 0xD800) * 0x400 + (n2 - 0xDC00)) :: p.1,
                        p.2))
                  else (parseStringBody fuel rest3).map
                    (fun p => (replacementChar :: p.1, p.2))
                | none => (parseStringBody fuel rest3).map
                    (fun p => (replacementChar :: p.1, p.2))
              | _ => (parseStringBody fuel rest3).map
                  (fun p => (replacementChar :: p.1, p.2))
            else
              (parseStringBody fuel rest3).map (fun p => (replacementChar :: p.1, p.2))
        else none
    else if c.toNat < 0x20 then none
    else (parseStringBody fuel rest).map (fun p => (c :: p.1, p.2))

/-- Optional fraction part of a JSON number: a dot followed by at least one
digit, or nothing. Returns the consumed literal text and the rest. -/
def parseFrac : List Char → Option (List Char × List Char)
  | '.' :: t =>
    if (t.takeWhile Char.isDigit).isEmpty then none
    else some ('.' :: t.takeWhile Char.isDigit, t.dropWhile Char.isDigit)
  | l => some ([], l)

/-- Optional exponent part of a JSON number: e or E, an optional sign, and
at least one digit, or nothing. -/
def parseExp : List Char → Option (List Char × List Char)
  | c :: t =>
    if c = 'e' ∨ c = 'E' then
      match t with
      | s :: t2 =>
        if s = '+' ∨ s = '-' then
          if (t2.takeWhile Char.isDigit).isEmpty then none
          else some (c :: s :: t2.takeWhile Char.isDigit, t2.dropWhile Char.isDigit)
        else if (t.takeWhile Char.isDigit).isEmpty then none
        else some (c :: t.takeWhile Char.isDigit, t.dropWhile Char.isDigit)
      | [] => none
    else some ([], c :: t)
  | [] => some ([], [])

/-- One JSON number token: optional minus, an integer part that is a single
zero or starts with a nonzero digit (leading zeros are a syntax error, as
in JSON.parse), then optional fraction and exponent. The literal text is
kept as the value. -/
def parseNumber (l : List Char) : Option (List Char × List Char) :=
  let p : List Char × List Char :=
    match l with
    | '-' :: t => (['-'], t)
    | _ => ([], l)
  match p.2 with
  | [] => none
  | c :: t =>
    if c = '0' then
      match parseFrac t with
      | none => none
      | some (f, r1) =>
        match parseExp r1 with
        | none => none
        | some (e, r2) => some (p.1 ++ '0' :: (f ++ e), r2)
    else if c.isDigit then
      match parseFrac (t.dropWhile Char.isDigit) with
      | none => none
      | some (f, r1) =>
        match parseExp r1 with
        | none => none
        | some (e, r2) => some (p.1 ++ c :: (t.takeWhile Char.isDigit ++ (f ++ e)), r2)
    else none

mutual

/-- One JSON value, after skipping leading whitespace: a string, object,
array, true/false/null literal, or number, exactly the alternatives the
JSON grammar of JSON.parse admits. Fuelled for the nesting recursion;
every two fuel steps consume input, so twice the input length suffices. -/
def parseValue : Nat → List Char → Option (Json × List Char)
  | 0, _ => none
  | fuel + 1, l =>
    match skipJsonWS l with
    | [] => none
    | c :: rest =>
      if c = '\"' then
        (parseStringBody (rest.length + 1) rest).map (fun p => (Json.str p.1, p.2))
      else if c = '\x7b' then
        match skipJsonWS rest with
        | '\x7d' :: r => some (.obj [], r)
        | r => (parseMembers fuel r).map (fun p => (Json.obj p.1, p.2))
      else if c = '[' then
        match skipJsonWS rest with
        | ']' :: r => some (.arr [], r)
        | r => (parseElements fuel r).map (fun p => (Json.arr p.1, p.2))
      else if c = 't' then
        match rest with
        | 'r' :: 'u' :: 'e' :: r => some (.bool true, r)
        | _ => none
      else if c = 'f' then
        match rest with
        | 'a' :: 'l' :: 's' :: 'e' :: r => some (.bool false, r)
        | _ => none
      else if c = 'n' then
        match rest with
        | 'u' :: 'l' :: 'l' :: r => some (.null, r)
        | _ => none
      else
        (parseNumber (c :: rest)).map (fun p => (Json.num p.1, p.2))

/-- The members of a non-empty JSON object, from the first key up to and
including the closing brace: string key, colon, value, then comma and more
members or the closing brace. Trailing commas and non-string keys are
syntax errors, as in JSON.parse. -/
def parseMembers : Nat → List Char → Option (List (List Char × Json) × List Char)
  | 0, _ => none
  | fuel + 1, l =>
    match skipJsonWS l with
    | '\"' :: rest =>
      match parseStringBody (rest.length + 1) rest with
      | none => none
      | some (k, r1) =>
        match skipJsonWS r1 with
        | ':' :: r2 =>
          match parseValue fuel r2 with
          | none => none
          | some (v, r3) =>
            match skipJsonWS r3 with
            | ',' :: r4 => (parseMembers fuel r4).map (fun p => ((k, v) :: p.1, p.2))
            | '\x7d' :: r4 => some ([(k, v)], r4)
            | _ => none
        | _ => none
    | _ => none

/-- The elements of a non-empty JSON array, up to and including the closing
bracket. -/
def parseElements : Nat → List Char → Option (List Json × List Char)
  | 0, _ => none
  | fuel + 1, l =>
    match parseValue fuel l with
    | none => none
    | some (v, r1) =>
      match skipJsonWS r1 with
      | ',' :: r2 => (parseElements fuel r2).map (fun p => (v :: p.1, p.2))
      | ']' :: r2 => some ([v], r2)
      | _ => none

end

/-- Models the JavaScript builtin JSON.parse as called at App.tsx line 143:
one JSON value with optional surrounding whitespace, nothing else trailing.
`none` models a thrown SyntaxError. The two documented model boundaries are
in `parseStringBody` (lone UTF-16 surrogates) and `Json.num` (numbers kept
as literal text). -/
def jsonParse (data : List Char) : Option Json :=
  match parseValue (2 * data.length + 2) data with
  | none => none
  | some (v, rest) => if (skipJsonWS rest).isEmpty then some v else none

/-- JavaScript property access parsed.role / parsed.content (App.tsx lines
147-148) on the result of JSON.parse: on an object, the last binding of
the key (JSON.parse keeps the last duplicate); undefined — `none` — when
the key is absent or the receiver is a non-object. A null payload would
make the real program raise a TypeError inside the deferred state-update
callback, outside handleSend's control flow; no claim quantifies over null
payloads. -/
def jsProp : Json → List Char → Option Json
  | .obj fields, k => ((fields.reverse.find? (fun p => p.1 == k)).map (fun p => p.2))
  | _, _ => none

/-- The Message record the final branch builds at App.tsx lines 146-149:
role and content are the two property accesses on the parsed payload. -/
def finalMessageOf (v : Json) : Message :=
  ⟨jsProp v "role".toList, jsProp v "content".toList⟩

/-- Placeholder for the message text of the SyntaxError JSON.parse throws:
the real text is environment-defined. No claim theorem refers to this
value; theorems about the throw path assert only that an exception
propagates (and the approved turn-level theorems never constrain the error
text of an aborted turn). -/
def jsonSyntaxErrorText : List Char :=
  "Unexpected token in JSON".toList

/-- The event-dispatch if/else chain of App.tsx lines 129-154, applied to an
already-parsed (event tag, data) pair. `ids` supplies the next values of
Date.now() + Math.random(); one is consumed per tool event. The third
component is `some msg` when the branch throws (JSON.parse on a malformed
`final` payload; note setToolMessages([]) at line 142 has already run when
the parse at line 143 throws, so the notices are cleared in that case). -/
def applyEvent (ids : List Nat) (s : ClientState) (ev data : List Char) :
    ClientState × List Nat × Option (List Char) :=
  if ev = "tool_call".toList then
    ({ s with toolMessages := s.toolMessages ++ [⟨ids.headD 0, data⟩] }, ids.tail, none)
  else if ev = "tool_update".toList then
    ({ s with toolMessages := s.toolMessages ++ [⟨ids.headD 0, data⟩] }, ids.tail, none)
  else if ev = "final".toList then
    match jsonParse data with
    | some v =>
      ({ s with toolMessages := [], messages := s.messages ++ [finalMessageOf v] }, ids, none)
    | none => ({ s with toolMessages := [] }, ids, some jsonSyntaxErrorText)
  else if ev = "error".toList then
    ({ s with error := some data }, ids, none)
  else
    (s, ids, none)

/-- Handling of one raw frame popped off the buffer, App.tsx lines 116-154:
a frame that trims to nothing is skipped (`continue`), otherwise it is parsed
and dispatched. -/
def dispatchRaw (ids : List Nat) (s : ClientState) (raw : List Char) :
    ClientState × List Nat × Option (List Char) :=
  if (jsTrim raw).isEmpty then (s, ids, none)
  else applyEvent ids s (parseFrame raw).1 (parseFrame raw).2

/-- Process, in order, the complete frames drained from the buffer after one
chunk read. A thrown exception aborts the remaining frames (the throw
escapes the while loops of App.tsx lines 107-156). -/
def processFrames : List Nat → ClientState → List (List Char) →
    ClientState × List Nat × Option (List Char)
  | ids, s, [] => (s, ids, none)
  | ids, s, f :: fs =>
    match dispatchRaw ids s f with
    | (s', ids', none) => processFrames ids' s' fs
    | (s', ids', some e) => (s', ids', some e)

/-- The read loop of App.tsx lines 107-156: for each chunk, append it to the
buffer, delete carriage returns, drain and dispatch every complete frame,
and keep the trailing partial frame buffered. A thrown exception ends the
loop immediately; reaching the end of the chunks models `done` from the
reader, which ends the loop normally (any buffered partial frame is simply
abandoned). -/
def readLoop : List Nat → ClientState → List Char → List (List Char) →
    ClientState × Option (List Char)
  | _, s, _, [] => (s, none)
  | ids, s, buf, c :: cs =>
    let p := drain (stripCR (buf ++ c))
    match processFrames ids s p.1 with
    | (s', ids', none) => readLoop ids' s' p.2 cs
    | (s', _, some e) => (s', some e)

/-- The outcome of the fetch call of App.tsx lines 87-101, supplied by the
environment: the fetch itself throws (transport failure), or the response is
not ok / has no body (its text is read and thrown, empty text falling back
to the fixed message at line 100), or a readable stream of chunks is
delivered. -/
inductive FetchResult where
  | transportError (msg : List Char)
  | httpError (body : List Char)
  | stream (chunks : List (List Char))
deriving DecidableEq, Repr

/-- The user Message built from the input box, App.tsx lines 77-80. -/
def userMessageOf (input : List Char) : Message :=
  ⟨some (.str "user".toList), some (.str input)⟩

/-- The history posted to /api/chat/stream, App.tsx line 94:
[...messages, userMessage] over the durable messages state captured before
the send (the toolMessages state is not consulted). -/
def requestBody (s : ClientState) (input : List Char) : List Message :=
  s.messages ++ [userMessageOf input]

/-- The state updates performed before the fetch, App.tsx lines 81-84:
append the user Message, set loading, clear any previous error. -/
def sendSetup (s : ClientState) (input : List Char) : ClientState :=
  { s with
    messages := s.messages ++ [userMessageOf input]
    isLoading := true
    error := none }

/-- The fallback thrown when the error response body is empty, App.tsx
line 100. -/
def defaultHttpErrorText : List Char :=
  "Failed to get response from AI".toList

/-- The body of the try block, App.tsx lines 86-156, given the fetch
outcome: a transport error or a non-ok response throws before any frame is
read; a stream is consumed by the read loop. -/
def runFetch (ids : List Nat) (s : ClientState) (r : FetchResult) :
    ClientState × Option (List Char) :=
  match r with
  | .transportError m => (s, some m)
  | .httpError body => (s, some (if body.isEmpty then defaultHttpErrorText else body))
  | .stream chunks => readLoop ids s [] chunks

/-- The catch and finally blocks, App.tsx lines 157-162: a propagating
exception's message becomes the current error, and in every case the
loading flag is cleared. -/
def finishTurn (p : ClientState × Option (List Char)) : ClientState :=
  match p.2 with
  | some m => { p.1 with error := some m, isLoading := false }
  | none => { p.1 with isLoading := false }

/-- handleSend, App.tsx lines 73-163, as a function of the pre-send state,
the input box contents, the fetch outcome and the id supply. Returns the
final state together with the message history posted to the backend
(`none` when the blank-input guard at line 74 returned early). -/
def handleSend (s : ClientState) (input : List Char) (r : FetchResult) (ids : List Nat) :
    ClientState × Option (List Message) :=
  if (jsTrim input).isEmpty then (s, none)
  else
    (finishTurn (runFetch ids (sendSetup s input) r), some (requestBody s input))

/-- The decoder's dispatch sequence over a chunked byte stream: the fold of
the read loop's buffer handling (App.tsx lines 110-115), accumulating the
raw frames popped from the buffer. -/
def feedAll : List (List Char) × List Char → List (List Char) →
    List (List Char) × List Char
  | acc, [] => acc
  | acc, c :: cs =>
    let p := drain (stripCR (acc.2 ++ c))
    feedAll (acc.1 ++ p.1, p.2) cs

/-- All raw frames the decoder pops for a given chunk sequence, starting
from the empty buffer of App.tsx line 105, with the final buffer contents. -/
def drainAll (chunks : List (List Char)) : List (List Char) × List Char :=
  feedAll ([], []) chunks

/-- The ordered sequence of dispatched events (tag and payload as handed to
the if/else chain of lines 129-154) for a given chunk sequence; frames that
trim to nothing are skipped (line 116) and dispatch nothing. -/
def decodedEvents (chunks : List (List Char)) : List (List Char × List Char) :=
  (drainAll chunks).1.filterMap
    (fun raw => if (jsTrim raw).isEmpty then none else some (parseFrame raw))

/-- The default system prompt, App.tsx lines 20-59. -/
def systemPromptText : String :=
  "
<instructions>
  <role>
    You are an Azure Agent assisting users with checking their model deployment status and upgrading to the desired version.
  </role>
  <userJourney>
    <step order=\"1\">Find all deployed models, include Account Name, Resource Group, Location, Deployment Name, Model, Version, SKU, Capacity.</step>
    <step order=\"2\">For each deployed model, find the retirement date and recommended replacement model.</step>
    <step order=\"3\">
      For each recommended replacement model or intend of change SKU types, check the quota for the same deployment type and region as the current model. 
      Ensure that the available quota for the replacement model (quota limit minus current usage) is greater than or equal to the required units for the upgrade. 
      Only proceed to upgrade if there is sufficient quota; otherwise, notify the user that the upgrade cannot proceed due to insufficient quota.
      If the user directly asks to upgrade a model, check if the replacement model is available and if the quota is sufficient. If so, proceed with the upgrade.
    </step>
    <step order=\"4\">Update the model to the latest version. If the update is successful and a URL is provided in the output, include this URL in your response.</step>
  </userJourney>
  <guidelines>
    <item>If the user is at any step above, guide them to the next step.</item>
    <item>Always incorporate all tool outputs, as these are important for customers.</item>
    <item>Respond in Markdown format.</item>
  </guidelines>
  <reference>
    <models>
      Typical Azure OpenAI model names: 
        - gpt4.1, gpt-4, gpt-4o, gpt-35-turbo, 4.1-mini, dalle-2, Sora, etc.
    </models>
    <skuTypes>
      Typical Azure OpenAI SKU types:
        - Standard, GlobalStandard, DataZoneStandard, Provisioned, etc.
    </skuTypes>
    <locations>
      Common Azure region locations:
        - eastus, eastus2, westus, westus2, southcentralus, francecentral, uksouth, swedencentral, japaneast, canadacentral, etc.
    </locations>
  </reference>
</instructions>
"

/-- systemMessage, App.tsx lines 20-59. -/
def systemMessage : Message :=
  ⟨some (.str "system".toList), some (.str systemPromptText.toList)⟩

/-- The initial React state, App.tsx lines 60-64. -/
def initialState : ClientState :=
  ⟨[systemMessage], [], false, none⟩

/-- One wire frame for event tag `ev` and a single data line `d`, without
the blank-line terminator: the raw text the decoder slices off the buffer. -/
def frameOf (ev d : List Char) : List Char :=
  "event: ".toList ++ ev ++ '\n' :: ("data: ".toList ++ d)

/-- One complete wire frame including its blank-line terminator. -/
def wireOf (ev d : List Char) : List Char :=
  frameOf ev d ++ '\n' :: '\n' :: []

/-! ### Lemmas about the frame splitter -/

theorem splitFrame_cons₂ (c₁ c₂ : Char) (t : List Char) :
    splitFrame (c₁ :: c₂ :: t) =
      if c₁ = '\n' ∧ c₂ = '\n' then some ([], t)
      else (splitFrame (c₂ :: t)).map (fun p => (c₁ :: p.1, p.2)) := rfl

theorem splitFrame_cons_of_ne (c : Char) (l : List Char) (hc : c ≠ '\n') :
    splitFrame (c :: l) = (splitFrame l).map (fun p => (c :: p.1, p.2)) := by
  cases l with
  | nil => rfl
  | cons d t => rw [splitFrame_cons₂, if_neg (by simp [hc])]

/-- A successful split decomposes the buffer as frame, terminator, rest. -/
theorem splitFrame_decomp : ∀ (l : List Char) (p : List Char × List Char),
    splitFrame l = some p → l = p.1 ++ '\n' :: '\n' :: p.2
  | [], p, h => by simp [splitFrame] at h
  | [c], p, h => by simp [splitFrame] at h
  | c₁ :: c₂ :: t, p, h => by
    rw [splitFrame_cons₂] at h
    by_cases hc : c₁ = '\n' ∧ c₂ = '\n'
    · rw [if_pos hc] at h
      cases h
      simp [hc.1, hc.2]
    · rw [if_neg hc] at h
      cases hs : splitFrame (c₂ :: t) with
      | none => rw [hs] at h; simp at h
      | some q =>
        rw [hs] at h
        simp only [Option.map_some'] at h
        cases h
        have ih := splitFrame_decomp (c₂ :: t) q hs
        simp [ih]

theorem splitFrame_length (l : List Char) (p : List Char × List Char)
    (h : splitFrame l = some p) : p.2.length < l.length := by
  have hd := splitFrame_decomp l p h
  rw [hd]
  simp
  omega

/-- Extending the buffer on the right cannot change an already-found frame. -/
theorem splitFrame_append : ∀ (a b : List Char) (p : List Char × List Char),
    splitFrame a = some p → splitFrame (a ++ b) = some (p.1, p.2 ++ b)
  | [], b, p, h => by simp [splitFrame] at h
  | [c], b, p, h => by simp [splitFrame] at h
  | c₁ :: c₂ :: t, b, p, h => by
    rw [splitFrame_cons₂] at h
    rw [show (c₁ :: c₂ :: t) ++ b = c₁ :: c₂ :: (t ++ b) from rfl, splitFrame_cons₂]
    by_cases hc : c₁ = '\n' ∧ c₂ = '\n'
    · rw [if_pos hc] at h
      rw [if_pos hc]
      cases h
      rfl
    · rw [if_neg hc] at h
      rw [if_neg hc]
      cases hs : splitFrame (c₂ :: t) with
      | none => rw [hs] at h; simp at h
      | some q =>
        rw [hs] at h
        simp only [Option.map_some'] at h
        cases h
        have ih := splitFrame_append (c₂ :: t) b q hs
        rw [show (c₂ :: t) ++ b = c₂ :: (t ++ b) from rfl] at ih
        rw [ih]
        rfl

/-! ### Lemmas about the buffer drain loop -/

theorem drainFuel_congr : ∀ (n m : Nat) (l : List Char), l.length ≤ n → l.length ≤ m →
    drainFuel n l = drainFuel m l
  | 0, m, l, hn, _ => by
    have hl : l = [] := List.eq_nil_of_length_eq_zero (Nat.le_zero.mp hn)
    subst hl
    cases m with
    | zero => rfl
    | succ k => rfl
  | n + 1, 0, l, _, hm => by
    have hl : l = [] := List.eq_nil_of_length_eq_zero (Nat.le_zero.mp hm)
    subst hl
    rfl
  | n + 1, m + 1, l, hn, hm => by
    cases hs : splitFrame l with
    | none => simp [drainFuel, hs]
    | some p =>
      obtain ⟨f, r⟩ := p
      have hlen : r.length < l.length := splitFrame_length l (f, r) hs
      have ih := drainFuel_congr n m r (by omega) (by omega)
      simp [drainFuel, hs, ih]

theorem drain_of_none (l : List Char) (h : splitFrame l = none) : drain l = ([], l) := by
  unfold drain
  cases hl : l.length with
  | zero => rfl
  | succ k => simp [drainFuel, h]

theorem drain_of_some (l f r : List Char) (h : splitFrame l = some (f, r)) :
    drain l = (f :: (drain r).1, (drain r).2) := by
  have hlen : r.length < l.length := splitFrame_length l (f, r) h
  unfold drain
  cases hl : l.length with
  | zero =>
    have : l = [] := List.eq_nil_of_length_eq_zero hl
    subst this
    simp [splitFrame] at h
  | succ k =>
    have hcongr := drainFuel_congr k r.length r (by omega) (le_refl _)
    simp [drainFuel, h, hcongr]

/-- Draining a concatenation drains the first part, then drains the leftover
joined with the second part; exactly the incremental behaviour of the
buffered read loop. -/
theorem drain_append (a b : List Char) :
    drain (a ++ b) = ((drain a).1 ++ (drain ((drain a).2 ++ b)).1,
      (drain ((drain a).2 ++ b)).2) := by
  cases hs : splitFrame a with
  | none =>
    rw [drain_of_none a hs]
    simp
  | some p =>
    obtain ⟨f, r⟩ := p
    have hlen : r.length < a.length := splitFrame_length a (f, r) hs
    rw [drain_of_some a f r hs]
    have hab := splitFrame_append a b (f, r) hs
    rw [drain_of_some (a ++ b) f (r ++ b) hab]
    have ih := drain_append r b
    rw [ih]
    simp
termination_by a.length

/-- The buffer left after draining contains no complete frame. -/
theorem splitFrame_drain_snd (l : List Char) : splitFrame (drain l).2 = none := by
  cases hs : splitFrame l with
  | none => rw [drain_of_none l hs]; exact hs
  | some p =>
    obtain ⟨f, r⟩ := p
    have hlen : r.length < l.length := splitFrame_length l (f, r) hs
    rw [drain_of_some l f r hs]
    exact splitFrame_drain_snd r
termination_by l.length

theorem mem_drain_snd (l : List Char) (c : Char) (h : c ∈ (drain l).2) : c ∈ l := by
  cases hs : splitFrame l with
  | none => rw [drain_of_none l hs] at h; exact h
  | some p =>
    obtain ⟨f, r⟩ := p
    have hlen : r.length < l.length := splitFrame_length l (f, r) hs
    rw [drain_of_some l f r hs] at h
    have hr : c ∈ r := mem_drain_snd r c h
    rw [splitFrame_decomp l (f, r) hs]
    simp [hr]
termination_by l.length

/-! ### Lemmas about carriage-return stripping -/

theorem stripCR_append (a b : List Char) : stripCR (a ++ b) = stripCR a ++ stripCR b :=
  List.filter_append a b

theorem not_mem_stripCR (l : List Char) : '\r' ∉ stripCR l := by
  intro h
  rw [stripCR, List.mem_filter] at h
  simp at h

theorem stripCR_eq_self (l : List Char) (h : '\r' ∉ l) : stripCR l = l := by
  rw [stripCR, List.filter_eq_self]
  intro a ha
  simp
  intro hac
  exact h (hac ▸ ha)

/-! ### The read loop's frame sequence is the drain of the whole stream -/

theorem feedAll_spec : ∀ (cs : List (List Char)) (fs : List (List Char)) (buf : List Char),
    '\r' ∉ buf → splitFrame buf = none →
    feedAll (fs, buf) cs =
      (fs ++ (drain (buf ++ stripCR cs.flatten)).1, (drain (buf ++ stripCR cs.flatten)).2)
  | [], fs, buf, hcr, hsf => by
    simp only [feedAll, List.flatten_nil]
    rw [show stripCR [] = [] from rfl, List.append_nil, drain_of_none buf hsf]
    simp
  | c :: cs, fs, buf, hcr, hsf => by
    have h1 : stripCR (buf ++ c) = buf ++ stripCR c := by
      rw [stripCR_append, stripCR_eq_self buf hcr]
    have hcr' : '\r' ∉ (drain (buf ++ stripCR c)).2 := by
      intro hm
      have := mem_drain_snd _ _ hm
      rw [List.mem_append] at this
      cases this with
      | inl h => exact hcr h
      | inr h => exact not_mem_stripCR c h
    have hsf' : splitFrame (drain (buf ++ stripCR c)).2 = none := splitFrame_drain_snd _
    have ih := feedAll_spec cs (fs ++ (drain (buf ++ stripCR c)).1)
      (drain (buf ++ stripCR c)).2 hcr' hsf'
    simp only [feedAll, h1]
    rw [ih]
    have hda := drain_append (buf ++ stripCR c) (stripCR cs.flatten)
    rw [List.flatten_cons, stripCR_append, ← List.append_assoc, hda]
    simp

theorem drainAll_eq_drain (chunks : List (List Char)) :
    drainAll chunks = drain (stripCR chunks.flatten) := by
  unfold drainAll
  rw [feedAll_spec chunks [] [] (by simp) rfl]
  simp

/-! ### Lemmas about trimming, line splitting and frame parsing -/

theorem jsTrim_eq_nil (l : List Char) (h : ∀ c ∈ l, isWSChar c = true) : jsTrim l = [] := by
  rw [jsTrim, List.dropWhile_eq_nil_iff.mpr h]
  rfl

theorem jsTrim_cons_ne_nil (c : Char) (l : List Char) (hc : isWSChar c = false) :
    jsTrim (c :: l) ≠ [] := by
  intro h
  rw [jsTrim, List.reverse_eq_nil_iff, List.dropWhile_eq_nil_iff] at h
  have h1 : List.dropWhile isWSChar (c :: l) = c :: l := by
    rw [List.dropWhile_cons, if_neg (by rw [hc]; exact Bool.false_ne_true)]
  rw [h1] at h
  have := h c (by simp)
  rw [hc] at this
  exact Bool.false_ne_true this

theorem jsTrim_cons_ws (c : Char) (l : List Char) (hc : isWSChar c = true) :
    jsTrim (c :: l) = jsTrim l := by
  rw [jsTrim, jsTrim, List.dropWhile_cons, if_pos hc]

theorem splitLines_no_nl (l : List Char) (h : '\n' ∉ l) : splitLines l = [l] := by
  induction l with
  | nil => rfl
  | cons c t ih =>
    have hc : c ≠ '\n' := fun hcc => h (hcc ▸ List.mem_cons_self c t)
    have ht : '\n' ∉ t := fun htt => h (List.mem_cons_of_mem c htt)
    rw [splitLines, if_neg hc, ih ht]

theorem splitLines_append_nl (a b : List Char) (h : '\n' ∉ a) :
    splitLines (a ++ '\n' :: b) = a :: splitLines b := by
  induction a with
  | nil =>
    rw [List.nil_append, splitLines, if_pos rfl]
  | cons c t ih =>
    have hc : c ≠ '\n' := fun hcc => h (hcc ▸ List.mem_cons_self c t)
    have ht : '\n' ∉ t := fun htt => h (List.mem_cons_of_mem c htt)
    rw [List.cons_append, splitLines, if_neg hc, ih ht]

/-- Parsing a one-event-line, one-data-line frame yields the trimmed tag and
trimmed payload, exactly as the line loop of App.tsx lines 118-127 does. -/
theorem parseFrame_frameOf (ev d : List Char) (hev : '\n' ∉ ev) (hd : '\n' ∉ d) :
    parseFrame (frameOf ev d) = (jsTrim ev, jsTrim d) := by
  have hsl : splitLines (frameOf ev d) =
      ("event: ".toList ++ ev) :: splitLines ("data: ".toList ++ d) := by
    rw [frameOf, show "event: ".toList ++ ev ++ '\n' :: ("data: ".toList ++ d) =
      ("event: ".toList ++ ev) ++ '\n' :: ("data: ".toList ++ d) by simp]
    exact splitLines_append_nl _ _ (by
      rw [List.mem_append]
      rintro (hm | hm)
      · revert hm; decide
      · exact hev hm)
  have hsl2 : splitLines ("data: ".toList ++ d) = ["data: ".toList ++ d] :=
    splitLines_no_nl _ (by
      rw [List.mem_append]
      rintro (hm | hm)
      · revert hm; decide
      · exact hd hm)
  rw [parseFrame, hsl, hsl2]
  have htk1 : ("event: ".toList ++ ev).take 6 = "event:".toList := by
    rw [List.take_append_eq_append_take]
    rfl
  have hdr1 : ("event: ".toList ++ ev).drop 6 = ' ' :: ev := by
    rw [List.drop_append_eq_append_drop]
    rfl
  have htk2 : ("data: ".toList ++ d).take 6 = "data: ".toList := by
    rw [List.take_append_eq_append_take]
    simp
  have htk2' : ("data: ".toList ++ d).take 5 = "data:".toList := by
    rw [List.take_append_eq_append_take]
    rfl
  have hdr2 : ("data: ".toList ++ d).drop 5 = ' ' :: d := by
    rw [List.drop_append_eq_append_drop]
    rfl
  rw [parseLines, if_pos htk1, hdr1]
  rw [parseLines, htk2, if_neg (by decide), if_pos htk2', hdr2]
  rw [parseLines]
  rw [jsTrim_cons_ws ' ' ev (by decide), jsTrim_cons_ws ' ' d (by decide)]
  rfl

/-- Frames built by the wire encoder are not blank, so the skip check of
App.tsx line 116 lets them through to the event dispatch. -/
theorem dispatchRaw_frameOf (ids : List Nat) (s : ClientState) (ev d : List Char)
    (hev : '\n' ∉ ev) (hd : '\n' ∉ d) :
    dispatchRaw ids s (frameOf ev d) = applyEvent ids s (jsTrim ev) (jsTrim d) := by
  have hne : jsTrim (frameOf ev d) ≠ [] := by
    have : frameOf ev d = 'e' :: ("vent: ".toList ++ ev ++ '\n' :: ("data: ".toList ++ d)) := by
      rw [frameOf]
      rfl
    rw [this]
    exact jsTrim_cons_ne_nil 'e' _ (by decide)
  rw [dispatchRaw, if_neg (by rw [List.isEmpty_iff]; exact hne),
    parseFrame_frameOf ev d hev hd]

/-! ### Locating terminators around newline-free segments -/

theorem splitFrame_ws_append (w r : List Char) (hw : '\n' ∉ w) :
    splitFrame (w ++ '\n' :: '\n' :: r) = some (w, r) := by
  induction w with
  | nil => rfl
  | cons c t ih =>
    have hc : c ≠ '\n' := fun hcc => hw (hcc ▸ List.mem_cons_self c t)
    have ht : '\n' ∉ t := fun htt => hw (List.mem_cons_of_mem c htt)
    rw [List.cons_append, splitFrame_cons_of_ne c _ hc, ih ht]
    rfl

theorem splitFrame_line2_append (a b r : List Char) (ha : '\n' ∉ a) (hb : '\n' ∉ b)
    (hbne : b ≠ []) :
    splitFrame ((a ++ '\n' :: b) ++ '\n' :: '\n' :: r) = some (a ++ '\n' :: b, r) := by
  induction a with
  | nil =>
    obtain ⟨c, t, rfl⟩ := List.exists_cons_of_ne_nil hbne
    have hc : c ≠ '\n' := fun hcc => hb (hcc ▸ List.mem_cons_self c t)
    have ht : '\n' ∉ t := fun htt => hb (List.mem_cons_of_mem c htt)
    rw [List.nil_append, List.cons_append,
      show '\n' :: ((c :: t) ++ '\n' :: '\n' :: r) = '\n' :: c :: (t ++ '\n' :: '\n' :: r)
        from rfl,
      splitFrame_cons₂, if_neg (by simp [hc]),
      splitFrame_cons_of_ne c _ hc, splitFrame_ws_append t r ht]
    rfl
  | cons x xs ih =>
    have hx : x ≠ '\n' := fun hxx => ha (hxx ▸ List.mem_cons_self x xs)
    have hxs : '\n' ∉ xs := fun hmm => ha (List.mem_cons_of_mem x hmm)
    rw [show ((x :: xs ++ '\n' :: b) ++ '\n' :: '\n' :: r) =
      x :: ((xs ++ '\n' :: b) ++ '\n' :: '\n' :: r) from rfl,
      splitFrame_cons_of_ne x _ hx, ih hxs]
    rfl

/-- Popping one wire frame off the front of the buffer. -/
theorem drain_wire_cons (ev d rest : List Char) (hev : '\n' ∉ ev) (hd : '\n' ∉ d) :
    drain (wireOf ev d ++ rest) = (frameOf ev d :: (drain rest).1, (drain rest).2) := by
  have hsp : splitFrame (wireOf ev d ++ rest) = some (frameOf ev d, rest) := by
    have h1 : wireOf ev d ++ rest =
        (("event: ".toList ++ ev) ++ '\n' :: ("data: ".toList ++ d)) ++ '\n' :: '\n' :: rest := by
      rw [wireOf, frameOf]
      simp
    rw [h1]
    have h2 := splitFrame_line2_append ("event: ".toList ++ ev) ("data: ".toList ++ d) rest
      (by
        rw [List.mem_append]
        rintro (hm | hm)
        · revert hm; decide
        · exact hev hm)
      (by
        rw [List.mem_append]
        rintro (hm | hm)
        · revert hm; decide
        · exact hd hm)
      (by simp)
    rw [h2, frameOf]
  exact drain_of_some _ _ _ hsp

theorem decodedEvents_single (x : List Char) :
    decodedEvents [x] = (drain (stripCR x)).1.filterMap
      (fun raw => if (jsTrim raw).isEmpty then none else some (parseFrame raw)) := by
  rw [decodedEvents, drainAll_eq_drain]
  simp

/-! ### The five branches of the event dispatch -/

theorem applyEvent_tool_call (ids : List Nat) (s : ClientState) (d : List Char) :
    applyEvent ids s "tool_call".toList d =
      ({ s with toolMessages := s.toolMessages ++ [⟨ids.headD 0, d⟩] }, ids.tail, none) := by
  rw [applyEvent, if_pos rfl]

theorem applyEvent_tool_update (ids : List Nat) (s : ClientState) (d : List Char) :
    applyEvent ids s "tool_update".toList d =
      ({ s with toolMessages := s.toolMessages ++ [⟨ids.headD 0, d⟩] }, ids.tail, none) := by
  rw [applyEvent, if_neg (by decide), if_pos rfl]

theorem applyEvent_final_some (ids : List Nat) (s : ClientState) (d : List Char)
    (v : Json) (hv : jsonParse d = some v) :
    applyEvent ids s "final".toList d =
      ({ s with toolMessages := [], messages := s.messages ++ [finalMessageOf v] },
        ids, none) := by
  rw [applyEvent, if_neg (by decide), if_neg (by decide), if_pos rfl, hv]

theorem applyEvent_final_none (ids : List Nat) (s : ClientState) (d : List Char)
    (hv : jsonParse d = none) :
    applyEvent ids s "final".toList d =
      ({ s with toolMessages := [] }, ids, some jsonSyntaxErrorText) := by
  rw [applyEvent, if_neg (by decide), if_neg (by decide), if_pos rfl, hv]

theorem finalMessageOf_eq (v : Json) (ro co : List Char)
    (hro : jsProp v "role".toList = some (.str ro))
    (hco : jsProp v "content".toList = some (.str co)) :
    finalMessageOf v = ⟨some (.str ro), some (.str co)⟩ := by
  rw [finalMessageOf, hro, hco]

theorem applyEvent_error (ids : List Nat) (s : ClientState) (d : List Char) :
    applyEvent ids s "error".toList d = ({ s with error := some d }, ids, none) := by
  rw [applyEvent, if_neg (by decide), if_neg (by decide), if_neg (by decide), if_pos rfl]

theorem applyEvent_other (ids : List Nat) (s : ClientState) (ev d : List Char)
    (h1 : ev ≠ "tool_call".toList) (h2 : ev ≠ "tool_update".toList)
    (h3 : ev ≠ "final".toList) (h4 : ev ≠ "error".toList) :
    applyEvent ids s ev d = (s, ids, none) := by
  rw [applyEvent, if_neg h1, if_neg h2, if_neg h3, if_neg h4]

/-- The finally block always clears the loading flag, whatever state and
exception reach it. -/
theorem finishTurn_isLoading (p : ClientState × Option (List Char)) :
    (finishTurn p).isLoading = false := by
  unfold finishTurn
  cases hp : p.2 <;> simp

theorem cr_not_mem_frameOf (ev d : List Char) (h1 : '\r' ∉ ev) (h2 : '\r' ∉ d) :
    '\r' ∉ frameOf ev d := by
  rw [frameOf]
  intro hm
  rcases List.mem_append.mp hm with hA | hB
  · rcases List.mem_append.mp hA with hA1 | hA2
    · exact (by decide : '\r' ∉ "event: ".toList) hA1
    · exact h1 hA2
  · rcases List.mem_cons.mp hB with hE | hF
    · exact (by decide : ¬ ('\r' = '\n')) hE
    · rcases List.mem_append.mp hF with hG | hH
      · exact (by decide : '\r' ∉ "data: ".toList) hG
      · exact h2 hH

theorem cr_not_mem_wireOf (ev d : List Char) (h1 : '\r' ∉ ev) (h2 : '\r' ∉ d) :
    '\r' ∉ wireOf ev d := by
  rw [wireOf]
  intro hm
  rcases List.mem_append.mp hm with hA | hB
  · exact cr_not_mem_frameOf ev d h1 h2 hA
  · revert hB; decide

/-! ### Claim theorems -/

/-- Claim C1: for every byte stream and every way of splitting it into
chunks — arbitrary split points, including in the middle of the blank-line
terminator — the stream decoder dispatches the same ordered sequence of
events as it would for the stream delivered in a single chunk: an
incomplete tail stays buffered with no partial frame dispatched, and all
complete frames in a chunk are dispatched in order. -/
theorem decoder_chunking_invariant (chunks : List (List Char)) :
    decodedEvents chunks = decodedEvents [chunks.flatten] := by
  rw [decodedEvents, drainAll_eq_drain, decodedEvents_single]

/-- Claim C2, counterexample: a `final` frame whose data is not valid JSON
is not merely dropped — JSON.parse throws (after the notices were already
cleared at App.tsx line 142), the exception aborts the read loop, and the
following tool_call frame is never dispatched: the turn ends with no
notice at all, where the claim's drop-and-continue behaviour would leave
the notice with id 7 and text "hi"; no Message beyond the user's is
appended, and the turn-level error is set (to the exception's
environment-defined message, whose text is not asserted). -/
theorem malformed_final_aborts_stream :
    (handleSend ⟨[], [], false, none⟩ "go".toList
        (.stream ["event: final\ndata: oops\n\nevent: tool_call\ndata: hi\n\n".toList])
        [7]).1.toolMessages = [] ∧
    (handleSend ⟨[], [], false, none⟩ "go".toList
        (.stream ["event: final\ndata: oops\n\nevent: tool_call\ndata: hi\n\n".toList])
        [7]).1.toolMessages ≠ [⟨7, "hi".toList⟩] ∧
    (handleSend ⟨[], [], false, none⟩ "go".toList
        (.stream ["event: final\ndata: oops\n\nevent: tool_call\ndata: hi\n\n".toList])
        [7]).1.messages = [userMessageOf "go".toList] ∧
    (handleSend ⟨[], [], false, none⟩ "go".toList
        (.stream ["event: final\ndata: oops\n\nevent: tool_call\ndata: hi\n\n".toList])
        [7]).1.error.isSome = true := by
  refine ⟨by decide, by decide, ?_, by decide⟩
  rfl

/-- Claim C2, amended: a frame whose event tag is unrecognised (or whose
tag line is missing or garbled, leaving any tag other than the four known
ones) is dropped and decoding continues undisturbed; but a `final` frame
whose payload is not valid JSON — JSON.parse throws, modelled by jsonParse
returning none — is not dropped: the notices were already cleared by the
statement preceding the parse, no id is consumed, and an exception
(carrying an environment-defined SyntaxError message, whose text is not
asserted) propagates, which by `processFrames`/`readLoop` abandons the
remaining frames of the turn and ends it through the catch/finally path. -/
theorem malformed_frame_disposition :
    (∀ (ids : List Nat) (s : ClientState) (ev d : List Char),
      ev ≠ "tool_call".toList → ev ≠ "tool_update".toList → ev ≠ "final".toList →
      ev ≠ "error".toList → applyEvent ids s ev d = (s, ids, none)) ∧
    (∀ (ids : List Nat) (s : ClientState) (d : List Char), jsonParse d = none →
      (applyEvent ids s "final".toList d).1 = { s with toolMessages := [] } ∧
      (applyEvent ids s "final".toList d).2.1 = ids ∧
      (applyEvent ids s "final".toList d).2.2.isSome = true) := by
  constructor
  · intro ids s ev d h1 h2 h3 h4
    exact applyEvent_other ids s ev d h1 h2 h3 h4
  · intro ids s d hv
    rw [applyEvent_final_none ids s d hv]
    exact ⟨rfl, rfl, rfl⟩

theorem malformed_frame_disposition_witness :
    applyEvent [] ⟨[], [], true, none⟩ "ping".toList "x".toList =
      (⟨[], [], true, none⟩, [], none) ∧
    ((applyEvent [3] ⟨[], [⟨1, "n".toList⟩], true, none⟩ "final".toList "oops".toList).1 =
        ⟨[], [], true, none⟩ ∧
      (applyEvent [3] ⟨[], [⟨1, "n".toList⟩], true, none⟩ "final".toList
          "oops".toList).2.1 = [3] ∧
      (applyEvent [3] ⟨[], [⟨1, "n".toList⟩], true, none⟩ "final".toList
          "oops".toList).2.2.isSome = true) :=
  ⟨malformed_frame_disposition.1 [] ⟨[], [], true, none⟩ "ping".toList "x".toList
      (by decide) (by decide) (by decide) (by decide),
    malformed_frame_disposition.2 [3] ⟨[], [⟨1, "n".toList⟩], true, none⟩ "oops".toList rfl⟩

/-- Claim C3: sending a non-blank turn sets loading, clears any previous
error and appends the user Message; and on every terminal path of the
connection — stream fully read (with or without a terminal event), non-ok
response, transport failure, or an exception thrown mid-decode — the
finally block releases the loading state. -/
theorem sending_sets_and_releases_loading (s : ClientState) (input : List Char)
    (r : FetchResult) (ids : List Nat) (h : jsTrim input ≠ []) :
    (sendSetup s input).isLoading = true ∧
    (sendSetup s input).error = none ∧
    (sendSetup s input).messages = s.messages ++ [userMessageOf input] ∧
    (handleSend s input r ids).1.isLoading = false := by
  refine ⟨rfl, rfl, rfl, ?_⟩
  rw [handleSend, if_neg (fun hh => h (List.isEmpty_iff.mp hh))]
  exact finishTurn_isLoading _

theorem sending_sets_and_releases_loading_witness :
    (sendSetup ⟨[], [], false, none⟩ "hi".toList).isLoading = true ∧
    (sendSetup ⟨[], [], false, none⟩ "hi".toList).error = none ∧
    (sendSetup ⟨[], [], false, none⟩ "hi".toList).messages =
      ClientState.messages ⟨[], [], false, none⟩ ++ [userMessageOf "hi".toList] ∧
    (handleSend ⟨[], [], false, none⟩ "hi".toList (.stream ["event: tool".toList]) []).1.isLoading
      = false :=
  sending_sets_and_releases_loading ⟨[], [], false, none⟩ "hi".toList
    (.stream ["event: tool".toList]) [] (by decide)

/-- Claim C4, counterexample: dispatching a `final` event does not clear the
loading state. The final branch (App.tsx lines 139-151) clears the notices
and appends the decoded Message but performs no setIsLoading call; here the
state after dispatching a well-formed `final` event still has
isLoading = true. Loading is released only when the connection terminates
and the finally block runs. -/
theorem final_dispatch_leaves_loading_set :
    (applyEvent [] ⟨[], [⟨1, "n".toList⟩], true, none⟩ "final".toList
        "\x7b\"role\":\"assistant\",\"content\":\"hello\"\x7d".toList).1.isLoading = true := by
  decide

/-- Claim C4, amended: dispatching a `final` event whose payload is valid
JSON decoding to an object with string role and content fields clears all
Transient Tool Notices and appends exactly the Message carrying that role
and content (escape sequences decoded), leaving the loading flag to be
released by the turn's finally block when the connection ends (not by the
final dispatch itself); in particular a turn receiving tool_call, then
tool_update, then final ends with exactly one appended durable Message,
zero residual notices, and loading released. -/
theorem final_event_effects (ids : List Nat) (s : ClientState) (data : List Char)
    (v : Json) (ro co : List Char) (hv : jsonParse data = some v)
    (hro : jsProp v "role".toList = some (.str ro))
    (hco : jsProp v "content".toList = some (.str co))
    (hdt : jsTrim data = data) (hnd : '\n' ∉ data) :
    applyEvent ids s "final".toList data =
      ({ s with
          toolMessages := []
          messages := s.messages ++ [Message.mk (some (.str ro)) (some (.str co))] },
        ids, none) ∧
    ∀ (s₀ : ClientState) (input t u : List Char) (idl : List Nat),
      jsTrim input ≠ [] → '\n' ∉ t → '\r' ∉ t → '\n' ∉ u → '\r' ∉ u → '\r' ∉ data →
      (handleSend s₀ input
          (.stream [wireOf "tool_call".toList t ++ wireOf "tool_update".toList u ++
            wireOf "final".toList data]) idl).1 =
        ⟨s₀.messages ++
            [userMessageOf input, Message.mk (some (.str ro)) (some (.str co))],
          [], false, none⟩ := by
  refine ⟨by rw [applyEvent_final_some ids s data v hv,
    finalMessageOf_eq v ro co hro hco], ?_⟩
  intro s₀ input t u idl hin hnt hrt hnu hru hrd
  set chunk := wireOf "tool_call".toList t ++ wireOf "tool_update".toList u ++
    wireOf "final".toList data with hchunk
  have hcr : '\r' ∉ chunk := by
    rw [hchunk]
    intro hm'
    rcases List.mem_append.mp hm' with hAB | hD
    · rcases List.mem_append.mp hAB with hA | hC
      · exact cr_not_mem_wireOf _ _ (by decide) hrt hA
      · exact cr_not_mem_wireOf _ _ (by decide) hru hC
    · exact cr_not_mem_wireOf _ _ (by decide) hrd hD
  have hstrip : stripCR ([] ++ chunk) = chunk := by
    rw [List.nil_append]
    exact stripCR_eq_self chunk hcr
  have hdr : drain chunk = ([frameOf "tool_call".toList t, frameOf "tool_update".toList u,
      frameOf "final".toList data], []) := by
    rw [hchunk, List.append_assoc (wireOf "tool_call".toList t),
      drain_wire_cons _ _ _ (by decide) hnt, drain_wire_cons _ _ _ (by decide) hnu,
      ← List.append_nil (wireOf "final".toList data),
      drain_wire_cons _ _ _ (by decide) hnd]
    rfl
  set s₁ := sendSetup s₀ input with hs₁
  set s₂ := { s₁ with
    toolMessages := s₁.toolMessages ++ [ToolMessage.mk (idl.headD 0) (jsTrim t)] } with hs₂
  set s₃ := { s₂ with
    toolMessages := s₂.toolMessages ++ [ToolMessage.mk (idl.tail.headD 0) (jsTrim u)] } with hs₃
  set s₄ := { s₃ with
    toolMessages := ([] : List ToolMessage)
    messages := s₃.messages ++ [Message.mk (some (.str ro)) (some (.str co))] } with hs₄
  have e1 : dispatchRaw idl s₁ (frameOf "tool_call".toList t) = (s₂, idl.tail, none) := by
    rw [dispatchRaw_frameOf idl s₁ _ t (by decide) hnt,
      show jsTrim "tool_call".toList = "tool_call".toList from by decide,
      applyEvent_tool_call, hs₂]
  have e2 : dispatchRaw idl.tail s₂ (frameOf "tool_update".toList u) =
      (s₃, idl.tail.tail, none) := by
    rw [dispatchRaw_frameOf idl.tail s₂ _ u (by decide) hnu,
      show jsTrim "tool_update".toList = "tool_update".toList from by decide,
      applyEvent_tool_update, hs₃]
  have e3 : dispatchRaw idl.tail.tail s₃ (frameOf "final".toList data) =
      (s₄, idl.tail.tail, none) := by
    rw [dispatchRaw_frameOf idl.tail.tail s₃ _ data (by decide) hnd,
      show jsTrim "final".toList = "final".toList from by decide, hdt,
      applyEvent_final_some idl.tail.tail s₃ data v hv,
      finalMessageOf_eq v ro co hro hco, hs₄]
  have hp1 : processFrames idl s₁ [frameOf "tool_call".toList t,
      frameOf "tool_update".toList u, frameOf "final".toList data] =
      processFrames idl.tail s₂ [frameOf "tool_update".toList u,
        frameOf "final".toList data] := by
    rw [processFrames, e1]
  have hp2 : processFrames idl.tail s₂ [frameOf "tool_update".toList u,
      frameOf "final".toList data] =
      processFrames idl.tail.tail s₃ [frameOf "final".toList data] := by
    rw [processFrames, e2]
  have hp3 : processFrames idl.tail.tail s₃ [frameOf "final".toList data] =
      (s₄, idl.tail.tail, none) := by
    rw [processFrames, e3]
    rfl
  have hproc := (hp1.trans hp2).trans hp3
  have hread : readLoop idl s₁ [] [chunk] = (s₄, none) := by
    rw [show ([chunk] : List (List Char)) = chunk :: [] from rfl]
    simp only [readLoop, hstrip, hdr, hproc]
  have hrun : runFetch idl (sendSetup s₀ input) (.stream [chunk]) = (s₄, none) := by
    rw [show runFetch idl (sendSetup s₀ input) (.stream [chunk]) =
      readLoop idl (sendSetup s₀ input) [] [chunk] from rfl, ← hs₁, hread]
  rw [handleSend, if_neg (fun hh => hin (List.isEmpty_iff.mp hh)), hrun]
  show ClientState.mk (s₀.messages ++ [userMessageOf input] ++
    [Message.mk (some (.str ro)) (some (.str co))]) [] false none = _
  rw [List.append_assoc]
  rfl

theorem final_event_effects_witness :
    applyEvent [] ⟨[], [⟨1, "n".toList⟩], true, none⟩ "final".toList
        "\x7b\"role\":\"assistant\",\"content\":\"line1\\nline2\"\x7d".toList =
      (⟨[Message.mk (some (.str "assistant".toList)) (some (.str "line1\nline2".toList))],
          [], true, none⟩, [], none) ∧
    (handleSend ⟨[], [], false, none⟩ "hi".toList
        (.stream [wireOf "tool_call".toList "calling".toList ++
          wireOf "tool_update".toList "done".toList ++
          wireOf "final".toList
            "\x7b\"role\":\"assistant\",\"content\":\"line1\\nline2\"\x7d".toList])
        [1, 2]).1 =
      ⟨[userMessageOf "hi".toList,
          Message.mk (some (.str "assistant".toList)) (some (.str "line1\nline2".toList))],
        [], false, none⟩ :=
  ⟨(final_event_effects [] ⟨[], [⟨1, "n".toList⟩], true, none⟩
      "\x7b\"role\":\"assistant\",\"content\":\"line1\\nline2\"\x7d".toList
      (Json.obj [("role".toList, Json.str "assistant".toList),
        ("content".toList, Json.str "line1\nline2".toList)])
      "assistant".toList "line1\nline2".toList rfl rfl rfl (by decide) (by decide)).1,
    (final_event_effects [] ⟨[], [⟨1, "n".toList⟩], true, none⟩
      "\x7b\"role\":\"assistant\",\"content\":\"line1\\nline2\"\x7d".toList
      (Json.obj [("role".toList, Json.str "assistant".toList),
        ("content".toList, Json.str "line1\nline2".toList)])
      "assistant".toList "line1\nline2".toList rfl rfl rfl (by decide) (by decide)).2
      ⟨[], [], false, none⟩ "hi".toList "calling".toList "done".toList [1, 2]
      (by decide) (by decide) (by decide) (by decide) (by decide) (by decide)⟩

/-- Claim C5, counterexample: dispatching an `error` event does not clear
the loading state. The error branch (App.tsx lines 152-154) only calls
setError; here the state after dispatching an `error` event still has
isLoading = true. Loading is released only by the finally block when the
connection ends. -/
theorem error_dispatch_leaves_loading_set :
    (applyEvent [] ⟨[], [⟨1, "n".toList⟩], true, none⟩ "error".toList
        "boom".toList).1.isLoading = true := by
  decide

/-- Claim C5, amended: dispatching an `error` event sets the current error
to the event's text and touches nothing else — in particular it does not
clear the Transient Tool Notices, and it leaves the loading flag to be
released by the turn's finally block when the connection ends (not by the
error dispatch itself); a turn that receives only an `error` event appends
zero durable Messages beyond the user Message, keeps its notices, ends with
loading = false, and its error text equals the event payload. -/
theorem error_event_effects (ids : List Nat) (s : ClientState) (t : List Char) :
    applyEvent ids s "error".toList t = ({ s with error := some t }, ids, none) ∧
    ∀ (s₀ : ClientState) (input : List Char) (idl : List Nat),
      jsTrim input ≠ [] → '\n' ∉ t → '\r' ∉ t → jsTrim t = t →
      (handleSend s₀ input (.stream [wireOf "error".toList t]) idl).1 =
        ⟨s₀.messages ++ [userMessageOf input], s₀.toolMessages, false, some t⟩ := by
  refine ⟨applyEvent_error ids s t, ?_⟩
  intro s₀ input idl hin hnt hrt htt
  set chunk := wireOf "error".toList t with hchunk
  have hcr : '\r' ∉ chunk := by
    rw [hchunk]
    exact cr_not_mem_wireOf _ _ (by decide) hrt
  have hstrip : stripCR ([] ++ chunk) = chunk := by
    rw [List.nil_append]
    exact stripCR_eq_self chunk hcr
  have hdr : drain chunk = ([frameOf "error".toList t], []) := by
    rw [hchunk, ← List.append_nil (wireOf "error".toList t),
      drain_wire_cons _ _ _ (by decide) hnt]
    rfl
  set s₁ := sendSetup s₀ input with hs₁
  set s₂ := { s₁ with error := some t } with hs₂
  have e1 : dispatchRaw idl s₁ (frameOf "error".toList t) = (s₂, idl, none) := by
    rw [dispatchRaw_frameOf idl s₁ _ t (by decide) hnt,
      show jsTrim "error".toList = "error".toList from by decide,
      applyEvent_error, htt, hs₂]
  have hp1 : processFrames idl s₁ [frameOf "error".toList t] = (s₂, idl, none) := by
    rw [processFrames, e1]
    rfl
  have hread : readLoop idl s₁ [] [chunk] = (s₂, none) := by
    rw [show ([chunk] : List (List Char)) = chunk :: [] from rfl]
    simp only [readLoop, hstrip, hdr, hp1]
  have hrun : runFetch idl (sendSetup s₀ input) (.stream [chunk]) = (s₂, none) := by
    rw [show runFetch idl (sendSetup s₀ input) (.stream [chunk]) =
      readLoop idl (sendSetup s₀ input) [] [chunk] from rfl, ← hs₁, hread]
  rw [handleSend, if_neg (fun hh => hin (List.isEmpty_iff.mp hh)), hrun]
  rfl

theorem error_event_effects_witness :
    applyEvent [] ⟨[], [⟨1, "n".toList⟩], true, none⟩ "error".toList "boom".toList =
      (⟨[], [⟨1, "n".toList⟩], true, some "boom".toList⟩, [], none) ∧
    (handleSend ⟨[], [⟨1, "n".toList⟩], false, none⟩ "hi".toList
        (.stream [wireOf "error".toList "boom".toList]) []).1 =
      ⟨[userMessageOf "hi".toList], [⟨1, "n".toList⟩], false, some "boom".toList⟩ :=
  ⟨(error_event_effects [] ⟨[], [⟨1, "n".toList⟩], true, none⟩ "boom".toList).1,
    (error_event_effects [] ⟨[], [⟨1, "n".toList⟩], true, none⟩ "boom".toList).2
      ⟨[], [⟨1, "n".toList⟩], false, none⟩ "hi".toList []
      (by decide) (by decide) (by decide) (by decide)⟩

/-- Claim C6, counterexample: the notice ids are not guaranteed unique. The
source computes each id as Date.now() + Math.random(), values drawn from
the environment with no uniqueness enforcement; if the environment yields
the same number twice (same-millisecond events with coinciding random
values), two notices share an id. Here the id supply [0, 0] produces
notices whose ids are not pairwise distinct. -/
theorem tool_notice_id_collision :
    ¬ (((processFrames [0, 0] ⟨[], [], true, none⟩
        ["event: tool_call\ndata: a".toList,
          "event: tool_call\ndata: b".toList]).1.toolMessages.map ToolMessage.id).Nodup) := by
  decide

/-- Claim C6, amended: dispatching a `tool_call` or `tool_update` event
appends one new Transient Tool Notice carrying the next environment-supplied
id (Date.now() + Math.random()) and the event's text, leaving the durable
history, the loading state and the error value unchanged; the new notice's
id is distinct from every existing notice's id whenever the supplied value
is fresh (which the code does not itself enforce). -/
theorem tool_event_appends_notice (ids : List Nat) (s : ClientState) (ev d : List Char)
    (hev : ev = "tool_call".toList ∨ ev = "tool_update".toList) :
    applyEvent ids s ev d =
      ({ s with toolMessages := s.toolMessages ++ [⟨ids.headD 0, d⟩] }, ids.tail, none) ∧
    (((s.toolMessages.map ToolMessage.id).Nodup ∧
        ids.headD 0 ∉ s.toolMessages.map ToolMessage.id) →
      (((applyEvent ids s ev d).1.toolMessages.map ToolMessage.id).Nodup)) := by
  have h1 : applyEvent ids s ev d =
      ({ s with toolMessages := s.toolMessages ++ [⟨ids.headD 0, d⟩] }, ids.tail, none) := by
    rcases hev with h | h
    · rw [h, applyEvent_tool_call]
    · rw [h, applyEvent_tool_update]
  refine ⟨h1, fun hnd => ?_⟩
  rw [h1]
  show ((s.toolMessages ++ [ToolMessage.mk (ids.headD 0) d]).map ToolMessage.id).Nodup
  rw [List.map_append, List.nodup_append]
  refine ⟨hnd.1, by simp, ?_⟩
  intro x hx hxmem
  have hxid : x = ids.headD 0 := by simpa using hxmem
  exact hnd.2 (hxid ▸ hx)

theorem tool_event_appends_notice_witness :
    applyEvent [5] ⟨[], [⟨1, "n".toList⟩], true, none⟩ "tool_call".toList "go".toList =
      (⟨[], [⟨1, "n".toList⟩, ⟨5, "go".toList⟩], true, none⟩, [], none) ∧
    ((((⟨[], [⟨1, "n".toList⟩], true, none⟩ : ClientState).toolMessages.map
          ToolMessage.id).Nodup ∧
        (5 : Nat) ∉ (⟨[], [⟨1, "n".toList⟩], true, none⟩ : ClientState).toolMessages.map
          ToolMessage.id) →
      (((applyEvent [5] ⟨[], [⟨1, "n".toList⟩], true, none⟩ "tool_call".toList
          "go".toList).1.toolMessages.map ToolMessage.id).Nodup)) :=
  tool_event_appends_notice [5] ⟨[], [⟨1, "n".toList⟩], true, none⟩ "tool_call".toList
    "go".toList (Or.inl rfl)

/-- Claim C7: a frame whose content is empty or consists only of whitespace
is skipped by the check at App.tsx line 116 — no event is dispatched, no
state changes — and decoding of the rest of the stream continues exactly as
if the blank frame were absent. -/
theorem blank_frames_ignored (ids : List Nat) (s : ClientState) (raw ws rest : List Char)
    (hraw : ∀ c ∈ raw, isWSChar c = true)
    (hws : ∀ c ∈ ws, isWSChar c = true ∧ c ≠ '\n') :
    dispatchRaw ids s raw = (s, ids, none) ∧
    decodedEvents [ws ++ '\n' :: '\n' :: rest] = decodedEvents [rest] := by
  constructor
  · rw [dispatchRaw, if_pos (by rw [jsTrim_eq_nil raw hraw]; rfl)]
  · rw [decodedEvents_single, decodedEvents_single]
    have h1 : stripCR (ws ++ '\n' :: '\n' :: rest) =
        stripCR ws ++ '\n' :: '\n' :: stripCR rest := by
      rw [stripCR_append]
      rfl
    have hw' : '\n' ∉ stripCR ws := fun hm => ((hws '\n' (List.mem_filter.mp hm).1).2) rfl
    rw [h1, drain_of_some _ _ _ (splitFrame_ws_append _ _ hw')]
    have hblank : jsTrim (stripCR ws) = [] :=
      jsTrim_eq_nil _ (fun c hc => (hws c (List.mem_filter.mp hc).1).1)
    simp [List.filterMap_cons, hblank]

theorem blank_frames_ignored_witness :
    dispatchRaw [] ⟨[], [], true, none⟩ "  ".toList = (⟨[], [], true, none⟩, [], none) ∧
    decodedEvents [" \t".toList ++ '\n' :: '\n' :: "event: error\ndata: x\n\n".toList] =
      decodedEvents ["event: error\ndata: x\n\n".toList] :=
  blank_frames_ignored [] ⟨[], [], true, none⟩ "  ".toList " \t".toList
    "event: error\ndata: x\n\n".toList (by decide) (by decide)

/-- Claim C8: the history posted to the backend is exactly the durable
messages plus the new user Message — the request-body construction at
App.tsx line 94 reads only the messages state, never the toolMessages
state, and the tool-event branches never write into the durable history, so
Transient Tool Notices can never reach the model. -/
theorem request_never_includes_notices (s : ClientState) (input : List Char)
    (r : FetchResult) (ids : List Nat) (h : jsTrim input ≠ []) :
    (handleSend s input r ids).2 = some (s.messages ++ [userMessageOf input]) ∧
    (∀ tm : List ToolMessage,
      requestBody { s with toolMessages := tm } input = requestBody s input) ∧
    (∀ (ids' : List Nat) (s' : ClientState) (d : List Char),
      (applyEvent ids' s' "tool_call".toList d).1.messages = s'.messages ∧
      (applyEvent ids' s' "tool_update".toList d).1.messages = s'.messages) := by
  refine ⟨?_, fun tm => rfl, fun ids' s' d => ⟨?_, ?_⟩⟩
  · rw [handleSend, if_neg (fun hh => h (List.isEmpty_iff.mp hh))]
    rfl
  · rw [applyEvent_tool_call]
  · rw [applyEvent_tool_update]

theorem request_never_includes_notices_witness :
    (handleSend ⟨[systemMessage], [⟨1, "n".toList⟩], false, none⟩ "hi".toList
        (.transportError "net down".toList) []).2 =
      some ([systemMessage] ++ [userMessageOf "hi".toList]) ∧
    requestBody { (⟨[systemMessage], [⟨1, "n".toList⟩], false, none⟩ : ClientState) with
        toolMessages := [] } "hi".toList =
      requestBody ⟨[systemMessage], [⟨1, "n".toList⟩], false, none⟩ "hi".toList ∧
    (applyEvent [7] ⟨[systemMessage], [], true, none⟩ "tool_call".toList
        "checking".toList).1.messages =
      ClientState.messages ⟨[systemMessage], [], true, none⟩ :=
  ⟨(request_never_includes_notices ⟨[systemMessage], [⟨1, "n".toList⟩], false, none⟩
      "hi".toList (.transportError "net down".toList) [] (by decide)).1,
    (request_never_includes_notices ⟨[systemMessage], [⟨1, "n".toList⟩], false, none⟩
      "hi".toList (.transportError "net down".toList) [] (by decide)).2.1 [],
    ((request_never_includes_notices ⟨[systemMessage], [⟨1, "n".toList⟩], false, none⟩
      "hi".toList (.transportError "net down".toList) [] (by decide)).2.2 [7]
      ⟨[systemMessage], [], true, none⟩ "checking".toList).1⟩

/-- Claim C9: a complete frame whose event tag is none of tool_call,
tool_update, final or error falls through every branch of the dispatch
chain (App.tsx lines 129-154): durable history, notices, error value,
loading state — and the pending id supply — are all unchanged. -/
theorem unrecognized_event_is_noop (ids : List Nat) (s : ClientState) (ev d : List Char)
    (h1 : ev ≠ "tool_call".toList) (h2 : ev ≠ "tool_update".toList)
    (h3 : ev ≠ "final".toList) (h4 : ev ≠ "error".toList) :
    applyEvent ids s ev d = (s, ids, none) :=
  applyEvent_other ids s ev d h1 h2 h3 h4

theorem unrecognized_event_is_noop_witness :
    applyEvent [4]
        ⟨[Message.mk (some (.str "system".toList)) (some (.str "s".toList))],
          [⟨1, "n".toList⟩], true, some "e".toList⟩
        "ping".toList "x".toList =
      (⟨[Message.mk (some (.str "system".toList)) (some (.str "s".toList))],
          [⟨1, "n".toList⟩], true, some "e".toList⟩, [4], none) :=
  unrecognized_event_is_noop [4]
    ⟨[Message.mk (some (.str "system".toList)) (some (.str "s".toList))],
      [⟨1, "n".toList⟩], true, some "e".toList⟩
    "ping".toList "x".toList (by decide) (by decide) (by decide) (by decide)

/-- Claim C10: an `error` event is not terminal on the client — its
dispatch returns normally, so the frame loop goes on and a later `final`
frame in the same stream is still dispatched, clearing the notices and
appending its decoded Message to the durable history (with the error text
of the earlier event still set). -/
theorem error_event_not_terminal (ids : List Nat) (s : ClientState) (t data : List Char)
    (v : Json) (ro co : List Char) (ht : '\n' ∉ t) (hd : '\n' ∉ data)
    (hdt : jsTrim data = data) (hv : jsonParse data = some v)
    (hro : jsProp v "role".toList = some (.str ro))
    (hco : jsProp v "content".toList = some (.str co)) :
    processFrames ids s [frameOf "error".toList t, frameOf "final".toList data] =
      ({ s with
          error := some (jsTrim t)
          toolMessages := []
          messages := s.messages ++ [Message.mk (some (.str ro)) (some (.str co))] },
        ids, none) := by
  have e1 : dispatchRaw ids s (frameOf "error".toList t) =
      ({ s with error := some (jsTrim t) }, ids, none) := by
    rw [dispatchRaw_frameOf ids s _ t (by decide) ht,
      show jsTrim "error".toList = "error".toList from by decide, applyEvent_error]
  have e2 : dispatchRaw ids { s with error := some (jsTrim t) }
      (frameOf "final".toList data) =
      ({ s with
          error := some (jsTrim t)
          toolMessages := []
          messages := s.messages ++ [Message.mk (some (.str ro)) (some (.str co))] },
        ids, none) := by
    rw [dispatchRaw_frameOf ids _ _ data (by decide) hd,
      show jsTrim "final".toList = "final".toList from by decide, hdt,
      applyEvent_final_some ids _ data v hv, finalMessageOf_eq v ro co hro hco]
  have hp1 : processFrames ids s [frameOf "error".toList t, frameOf "final".toList data] =
      processFrames ids { s with error := some (jsTrim t) } [frameOf "final".toList data] := by
    rw [processFrames, e1]
  have hp2 : processFrames ids { s with error := some (jsTrim t) }
      [frameOf "final".toList data] =
      ({ s with
          error := some (jsTrim t)
          toolMessages := []
          messages := s.messages ++ [Message.mk (some (.str ro)) (some (.str co))] },
        ids, none) := by
    rw [processFrames, e2]
    rfl
  exact hp1.trans hp2

theorem error_event_not_terminal_witness :
    processFrames [] ⟨[], [⟨1, "n".toList⟩], true, none⟩
        [frameOf "error".toList "boom".toList,
          frameOf "final".toList
            "\x7b\"role\":\"assistant\",\"content\":\"hello\"\x7d".toList] =
      (⟨[Message.mk (some (.str "assistant".toList)) (some (.str "hello".toList))],
          [], true, some "boom".toList⟩, [], none) :=
  error_event_not_terminal [] ⟨[], [⟨1, "n".toList⟩], true, none⟩ "boom".toList
    "\x7b\"role\":\"assistant\",\"content\":\"hello\"\x7d".toList
    (Json.obj [("role".toList, Json.str "assistant".toList),
      ("content".toList, Json.str "hello".toList)])
    "assistant".toList "hello".toList (by decide) (by decide) (by decide) rfl rfl rfl

end AgentDemo
